import Mathlib

/-!
Verification of the Inventory Field Reconciler core of the
shopify-best-sellers-app repository, shallowly embedded in Lean 4.

The embedding follows the JavaScript source:
* `app/routes/app.duplicate-skus.jsx` — duplicate-SKU loader (grouping by
  trimmed SKU in a `Map`, duplicate filtering, sort by descending count) and
  the `removeSku` / `reassignSku` / bulk-update action.
* `app/routes/app.missing-skus.jsx` — missing-SKU loader (counters and
  missing bucket) and the per-product bulk update action.
* `app/routes/app.best-sellers.jsx` — order-pagination loop and the
  final ranking pipeline (filter / sort / slice / rank).
* `app/routes/app.csv-comparison.jsx` — GTIN normalization, comparison
  buckets and the `parseCSVLine` helper.

JavaScript `Map` is modelled as an insertion-ordered association list,
`Array.prototype.sort` (stable in ECMAScript) as `List.mergeSort`,
strings as Lean `String`, and nullable values as `Option`.
-/

/-- A flattened variant record as pushed by the loaders: the product fields are
copied next to the variant fields (`app.duplicate-skus.jsx` lines 114–126). -/
structure Variant where
  productId : String
  productTitle : String
  variantId : String
  variantTitle : String
  sku : Option String
  barcode : Option String
  price : String
  inventoryQuantity : Option Int
  deriving Repr, DecidableEq

/-- Leading-whitespace stripper used to build the JavaScript `trim`. -/
def dropLeadingWS : List Char → List Char
  | [] => []
  | c :: rest => if c.isWhitespace then dropLeadingWS rest else c :: rest

/-- JavaScript `String.prototype.trim`: strip leading and trailing
whitespace. -/
def jsTrim (s : String) : String :=
  String.mk ((dropLeadingWS ((dropLeadingWS s.data).reverse)).reverse)

/-- Trimmed key of a variant, `const sku = variant.sku?.trim(); if (!sku)
...` — with
`none` both for an absent SKU and for one that trims to the empty string. -/
def skuKey (v : Variant) : Option String :=
  match v.sku with
  | none => none
  | some s => let t := jsTrim s; if t = "" then none else some t

/-- JavaScript `Map` update used by the loaders: `if (!m.has(k)) m.set(k, []);
m.get(k).push(v)`.  The association list keeps first-insertion key order and
appends new members at the end of their group. -/
def mapInsert {β : Type} (m : List (String × List β)) (k : String) (v : β) :
    List (String × List β) :=
  match m with
  | [] => [(k, [v])]
  | (k', vs) :: rest =>
    if k' = k then (k', vs ++ [v]) :: rest else (k', vs) :: mapInsert rest k v

/-- The `skuMap` built by the duplicate-SKU loader: every variant whose trimmed
SKU is non-empty is appended to its key's group; empty/absent SKUs are
skipped (`if (!sku) continue`). -/
def skuMapOf (vs : List Variant) : List (String × List Variant) :=
  vs.foldl
    (fun m v =>
      match skuKey v with
      | none => m
      | some k => mapInsert m k v)
    []

/-- The `missingSKUs` bucket of the missing-SKU loader: variants whose trimmed
SKU is empty or absent, in input order. -/
def missingSKUs (vs : List Variant) : List Variant :=
  vs.filter (fun v => (skuKey v).isNone)

/-- Counter `variantsWithSKUs` of the missing-SKU loader. -/
def variantsWithSKUs (vs : List Variant) : Nat :=
  vs.countP (fun v => (skuKey v).isSome)

/-- Counter `totalVariantsScanned` as reported by the missing-SKU loader
(`totalVariants++` on every variant edge). -/
def missingTotalVariantsScanned (vs : List Variant) : Nat := vs.length

/-- Counter `totalVariantsScanned` as reported by the duplicate-SKU loader
(`totalVariantsScanned += variants.length` over the `skuMap` entries). -/
def dupTotalVariantsScanned (vs : List Variant) : Nat :=
  (((skuMapOf vs).map (fun e => e.2.length))).sum

/-- One duplicate group as pushed by the duplicate-SKU loader:
`{ sku, count: variants.length, variants }`. -/
structure DupGroup where
  sku : String
  count : Nat
  variants : List Variant
  deriving Repr, DecidableEq

/-- The unsorted `duplicates` array: `skuMap` entries with more than one
member, in first-seen key order. -/
def duplicates (vs : List Variant) : List DupGroup :=
  ((skuMapOf vs).filter (fun e => decide (1 < e.2.length))).map
    (fun e => ⟨e.1, e.2.length, e.2⟩)

/-- The unique-with-key bucket: members of the `skuMap` entries that are not
duplicate groups. -/
def uniqueWithKey (vs : List Variant) : List Variant :=
  (((skuMapOf vs).filter (fun e => !(decide (1 < e.2.length)))).map
    (fun e => e.2)).flatten

/-- Sum of the duplicate group sizes. -/
def dupSizesSum (vs : List Variant) : Nat :=
  ((duplicates vs).map (fun g => g.count)).sum

/-- Sorted duplicate groups, `duplicates.sort((a, b) => b.count - a.count)`
— ECMAScript sort is
stable, modelled by the stable `List.mergeSort`. -/
def sortedDuplicates (vs : List Variant) : List DupGroup :=
  (duplicates vs).mergeSort (fun a b => decide (b.count ≤ a.count))

/-- First-seen order of trimmed non-empty SKU keys in the input. -/
def firstSeenKeys (vs : List Variant) : List String :=
  vs.foldl
    (fun acc v =>
      match skuKey v with
      | none => acc
      | some k => if k ∈ acc then acc else acc ++ [k])
    []

/-- Members of a grouping map, in group order. -/
def mapContents {β : Type} (m : List (String × List β)) : List β :=
  (m.map (fun e => e.2)).flatten

theorem mapInsert_contents {β : Type} (m : List (String × List β)) (k : String)
    (v : β) : (mapContents (mapInsert m k v)).Perm (v :: mapContents m) := by
  induction m with
  | nil => simp [mapInsert, mapContents]
  | cons e rest ih =>
    obtain ⟨k', ws⟩ := e
    by_cases hk : k' = k
    · subst hk
      have e1 : mapInsert ((k', ws) :: rest) k' v = (k', ws ++ [v]) :: rest := by
        simp [mapInsert]
      rw [e1]
      simp only [mapContents, List.map_cons, List.flatten_cons]
      rw [List.append_assoc]
      exact List.perm_middle
    · have e1 : mapInsert ((k', ws) :: rest) k v
          = (k', ws) :: mapInsert rest k v := by
        simp [mapInsert, hk]
      rw [e1]
      simp only [mapContents, List.map_cons, List.flatten_cons]
      exact (List.Perm.append_left ws ih).trans List.perm_middle

theorem skuMapOf_contents_aux (vs : List Variant)
    (m : List (String × List Variant)) :
    (mapContents
        (vs.foldl
          (fun m v =>
            match skuKey v with
            | none => m
            | some k => mapInsert m k v)
          m)).Perm
      (mapContents m ++ vs.filter (fun v => (skuKey v).isSome)) := by
  induction vs generalizing m with
  | nil => simp
  | cons v rest ih =>
    cases h : skuKey v with
    | none =>
      rw [List.foldl_cons, List.filter_cons_of_neg (by simp [h])]
      simpa [h] using ih m
    | some k =>
      rw [List.foldl_cons, List.filter_cons_of_pos (by simp [h])]
      have step : (rest.foldl
          (fun m v =>
            match skuKey v with
            | none => m
            | some k => mapInsert m k v)
          ((fun m v =>
            match skuKey v with
            | none => m
            | some k => mapInsert m k v) m v))
          = (rest.foldl
            (fun m v =>
              match skuKey v with
              | none => m
              | some k => mapInsert m k v)
            (mapInsert m k v)) := by
        simp [h]
      rw [step]
      refine (ih (mapInsert m k v)).trans ?_
      refine List.Perm.trans
        (List.Perm.append_right _ (mapInsert_contents m k v)) ?_
      simpa using List.perm_middle.symm

theorem skuMapOf_contents (vs : List Variant) :
    (mapContents (skuMapOf vs)).Perm
      (vs.filter (fun v => (skuKey v).isSome)) := by
  simpa [mapContents] using skuMapOf_contents_aux vs []

theorem sum_map_filter_split {β : Type} (m : List β) (f : β → Nat)
    (p : β → Bool) :
    (m.map f).sum
      = ((m.filter p).map f).sum + ((m.filter (fun x => !p x)).map f).sum := by
  induction m with
  | nil => simp
  | cons x rest ih =>
    by_cases hx : p x = true
    · simp [List.filter_cons, hx, ih]; omega
    · simp only [Bool.not_eq_true] at hx
      simp [List.filter_cons, hx, ih]; omega

/-- C1: Classification fully partitions the scanned variants: the input is
a permutation of the missing-key bucket followed by the members of the SKU
groups (hence every scanned record lands in exactly one bucket), and both
routes' `totalVariantsScanned` counters equal `missingKey.length +
Σ(duplicate group sizes) + uniqueWithKey.length` (the missing-SKU loader
counts every variant; the duplicate-SKU loader, which drops missing-key
records before reaching its counter, reports the same sum with an empty
missing bucket). -/
theorem classification_partitions_and_counts (vs : List Variant) :
    vs.Perm (missingSKUs vs ++ mapContents (skuMapOf vs)) ∧
    missingTotalVariantsScanned vs
      = (missingSKUs vs).length + (dupSizesSum vs + (uniqueWithKey vs).length) ∧
    dupTotalVariantsScanned vs
      = dupSizesSum vs + (uniqueWithKey vs).length ∧
    variantsWithSKUs vs = dupSizesSum vs + (uniqueWithKey vs).length := by
  have hperm : vs.Perm (missingSKUs vs ++ mapContents (skuMapOf vs)) := by
    have h2 : vs.filter (fun v => !(skuKey v).isNone)
        = vs.filter (fun v => (skuKey v).isSome) := by
      apply List.filter_congr
      intro v _
      cases skuKey v <;> simp
    have h1 := List.filter_append_perm (fun v => (skuKey v).isNone) vs
    rw [h2] at h1
    have h3 : (missingSKUs vs ++ mapContents (skuMapOf vs)).Perm
        (vs.filter (fun v => (skuKey v).isNone)
          ++ vs.filter (fun v => (skuKey v).isSome)) := by
      unfold missingSKUs
      exact List.Perm.append_left _ (skuMapOf_contents vs)
    exact (h3.trans h1).symm
  have hsplit : dupTotalVariantsScanned vs
      = dupSizesSum vs + (uniqueWithKey vs).length := by
    unfold dupTotalVariantsScanned dupSizesSum uniqueWithKey duplicates
    rw [sum_map_filter_split (skuMapOf vs) (fun e => e.2.length)
      (fun e => decide (1 < e.2.length)), List.length_flatten]
    simp [List.map_map, Function.comp_def]
  have hlen : missingTotalVariantsScanned vs
      = (missingSKUs vs).length + dupTotalVariantsScanned vs := by
    have hl := hperm.length_eq
    simp only [List.length_append] at hl
    unfold missingTotalVariantsScanned
    rw [hl]
    congr 1
    unfold mapContents dupTotalVariantsScanned
    rw [List.length_flatten, List.map_map]
    simp [Function.comp_def]
  have hwith : variantsWithSKUs vs = dupTotalVariantsScanned vs := by
    unfold variantsWithSKUs dupTotalVariantsScanned
    rw [List.countP_eq_length_filter, ← (skuMapOf_contents vs).length_eq]
    unfold mapContents
    rw [List.length_flatten, List.map_map]
    simp [Function.comp_def]
  exact ⟨hperm, by omega, hsplit, by omega⟩

theorem mapInsert_keys {β : Type} (m : List (String × List β)) (k : String)
    (v : β) :
    (mapInsert m k v).map Prod.fst
      = if k ∈ m.map Prod.fst then m.map Prod.fst
        else m.map Prod.fst ++ [k] := by
  induction m with
  | nil => simp [mapInsert]
  | cons e rest ih =>
    obtain ⟨k', ws⟩ := e
    by_cases hk : k' = k
    · subst hk
      have e1 : mapInsert ((k', ws) :: rest) k' v = (k', ws ++ [v]) :: rest := by
        simp [mapInsert]
      rw [e1]
      simp
    · have e1 : mapInsert ((k', ws) :: rest) k v
          = (k', ws) :: mapInsert rest k v := by
        simp [mapInsert, hk]
      rw [e1]
      have hne : ¬ k = k' := fun h => hk h.symm
      simp only [List.map_cons, ih, List.mem_cons, hne, false_or]
      by_cases hmem : k ∈ rest.map Prod.fst <;> simp [hmem]

theorem skuMapOf_keys_aux (vs : List Variant)
    (m : List (String × List Variant)) :
    (vs.foldl
        (fun m v =>
          match skuKey v with
          | none => m
          | some k => mapInsert m k v)
        m).map Prod.fst
      = vs.foldl
          (fun acc v =>
            match skuKey v with
            | none => acc
            | some k => if k ∈ acc then acc else acc ++ [k])
          (m.map Prod.fst) := by
  induction vs generalizing m with
  | nil => simp
  | cons v rest ih =>
    cases h : skuKey v with
    | none => simp only [List.foldl_cons, h]; exact ih m
    | some k =>
      simp only [List.foldl_cons, h]
      rw [ih (mapInsert m k v), mapInsert_keys]

/-- The `skuMap` lists its keys in first-seen input order. -/
theorem skuMapOf_keys (vs : List Variant) :
    (skuMapOf vs).map Prod.fst = firstSeenKeys vs := by
  simpa using skuMapOf_keys_aux vs []

theorem dup_count_le_trans (a b c : DupGroup) :
    decide (b.count ≤ a.count) → decide (c.count ≤ b.count)
      → decide (c.count ≤ a.count) := by
  simp only [decide_eq_true_eq]
  omega

theorem dup_count_le_total (a b : DupGroup) :
    (decide (b.count ≤ a.count) || decide (a.count ≤ b.count)) = true := by
  simp only [Bool.or_eq_true, decide_eq_true_eq]
  omega

/-- Stability of the ECMAScript-style stable sort: filtering the sorted
duplicates down to one group size gives exactly the same list as filtering
the unsorted (first-seen-ordered) duplicates. -/
theorem sortedDuplicates_filter_count (vs : List Variant) (c : Nat) :
    (sortedDuplicates vs).filter (fun g => decide (g.count = c))
      = (duplicates vs).filter (fun g => decide (g.count = c)) := by
  set le : DupGroup → DupGroup → Bool := fun a b => decide (b.count ≤ a.count)
  set p : DupGroup → Bool := fun g => decide (g.count = c)
  have hpair : ((duplicates vs).filter p).Pairwise (fun a b => le a b) := by
    apply List.pairwise_of_forall_mem_list
    intro a ha b hb
    have ha' := (List.mem_filter.mp ha).2
    have hb' := (List.mem_filter.mp hb).2
    simp only [p, decide_eq_true_eq] at ha' hb'
    simp [le, ha', hb']
  have hsub : ((duplicates vs).filter p).Sublist (sortedDuplicates vs) := by
    unfold sortedDuplicates
    exact List.sublist_mergeSort
      (fun a b c => dup_count_le_trans a b c)
      (fun a b => dup_count_le_total a b)
      hpair (List.filter_sublist _)
  have hsub2 : ((duplicates vs).filter p).Sublist
      ((sortedDuplicates vs).filter p) := by
    have := hsub.filter p
    rwa [List.filter_filter, show (fun a => p a && p a) = p from by
      funext a; cases p a <;> simp] at this
  have hlen : ((sortedDuplicates vs).filter p).length
      = ((duplicates vs).filter p).length := by
    have hp : (sortedDuplicates vs).Perm (duplicates vs) :=
      List.mergeSort_perm (duplicates vs) _
    exact (hp.filter p).length_eq
  exact (hsub2.eq_of_length hlen.symm).symm

/-- C6: The duplicate-group output is sorted by non-increasing member
count; because `Array.prototype.sort` is stable and the unsorted groups are
produced in first-seen key order, groups of equal count keep their
first-seen relative order: filtering the sorted output to any fixed count
reproduces the corresponding slice of the unsorted, first-seen-ordered
groups, whose keys are exactly `firstSeenKeys`. -/
theorem duplicates_sorted_desc_stable (vs : List Variant) (c : Nat) :
    (sortedDuplicates vs).Pairwise (fun a b => b.count ≤ a.count) ∧
    (sortedDuplicates vs).filter (fun g => decide (g.count = c))
      = (duplicates vs).filter (fun g => decide (g.count = c)) ∧
    (skuMapOf vs).map Prod.fst = firstSeenKeys vs := by
  refine ⟨?_, sortedDuplicates_filter_count vs c, skuMapOf_keys vs⟩
  have h := @List.sorted_mergeSort DupGroup
    (fun a b => decide (b.count ≤ a.count))
    (fun a b c => dup_count_le_trans a b c)
    (fun a b => dup_count_le_total a b)
    (duplicates vs)
  exact h.imp (by intro a b hab; simpa using hab)

/-- Page info of one fetched page: `hasNextPage` and `endCursor` (the code
stores `endCursor || null`). -/
structure PageInfo where
  hasNextPage : Bool
  endCursor : Option String
  deriving Repr, DecidableEq

/-- Number of pages the loader's fetch loop consumes when the successive
responses are `ps`: the loop body runs once, then repeats while the response
said `hasNextPage` (`while (hasNextPage) { ... hasNextPage =
pageInfo.hasNextPage; cursor = pageInfo.endCursor || null; }`).  The cursor is
stored but never tested by the loop condition. -/
def pagesConsumed : List PageInfo → Nat
  | [] => 0
  | p :: rest => 1 + (if p.hasNextPage then pagesConsumed rest else 0)

/-- Modelled from the spec: the number of pages the loop would consume if, as
the claim states, both `hasMore = false` and a null/absent `nextCursor` were
terminal conditions. -/
def pagesConsumedClaimed : List PageInfo → Nat
  | [] => 0
  | p :: rest =>
    1 + (if p.hasNextPage ∧ p.endCursor ≠ none then pagesConsumedClaimed rest
         else 0)

/-- The cursors passed to the successive `fetchPage` calls: the first call
uses `null`, and each following call uses the previous response's
`endCursor || null`. -/
def cursorsRequestedFrom : Option String → List PageInfo → List (Option String)
  | c, [] => [c]
  | c, p :: rest =>
    c :: (if p.hasNextPage then cursorsRequestedFrom p.endCursor rest else [])

def cursorsRequested (ps : List PageInfo) : List (Option String) :=
  cursorsRequestedFrom none ps

/-- C4 counterexample: A page reporting `hasNextPage = true` with a null
cursor does not terminate the collection: the loop consumes the following
page as well (issuing the next fetch with a null cursor), while the claimed
policy would have stopped after the first page. -/
theorem collector_null_cursor_not_terminal :
    pagesConsumed
        [⟨true, none⟩, ⟨false, none⟩] = 2 ∧
    pagesConsumedClaimed
        [⟨true, none⟩, ⟨false, none⟩] = 1 ∧
    cursorsRequested
        [⟨true, none⟩, ⟨false, none⟩] = [none, none] := by
  refine ⟨rfl, ?_, rfl⟩
  simp [pagesConsumedClaimed]

/-- C4 amended: The fetch loop's only terminal condition is
`hasNextPage = false`: the loop consumes pages up to and including the first
page whose `hasNextPage` is false (or the whole sequence if every page
reports `hasNextPage`); the returned cursor — null or not — never stops the
loop, and each follow-up fetch is issued with the previous page's
`endCursor || null`. -/
theorem collector_stops_only_on_hasNextPage_false (ps : List PageInfo) :
    pagesConsumed ps
      = min (ps.findIdx (fun p => !p.hasNextPage) + 1) ps.length := by
  induction ps with
  | nil => simp [pagesConsumed]
  | cons p rest ih =>
    cases hp : p.hasNextPage
    · simp [pagesConsumed, List.findIdx_cons, hp]
    · simp [pagesConsumed, List.findIdx_cons, hp, ih]
      omega

/-- Character loop of `parseCSVLine` (`app.csv-comparison.jsx`): walks the
line with an `inQuotes` flag and a `current` field accumulator; a `"` inside
quotes followed by another `"` is an escaped quote (both characters consumed,
one `"` emitted); an unquoted `,` ends the field; every finished field is
trimmed before being pushed. -/
def parseCSVLineAux : Bool → List Char → List String → List Char → List String
  | _, current, acc, [] => acc ++ [jsTrim (String.mk current)]
  | inQuotes, current, acc, c :: rest =>
    if c = '"' then
      if inQuotes ∧ rest.head? = some '"' then
        parseCSVLineAux true (current ++ ['"']) acc rest.tail
      else
        parseCSVLineAux (!inQuotes) current acc rest
    else if c = ',' ∧ inQuotes = false then
      parseCSVLineAux false [] (acc ++ [jsTrim (String.mk current)]) rest
    else
      parseCSVLineAux inQuotes (current ++ [c]) acc rest
  termination_by _ _ _ l => l.length
  decreasing_by
    · cases rest <;> simp +arith
    · simp +arith
    · simp +arith
    · simp +arith

/-- Fields of one CSV line, `parseCSVLine(line)`, honoring quoted fields and
escaped quotes. -/
def parseCSVLine (line : String) : List String :=
  parseCSVLineAux false [] [] line.data

/-- C7: The CSV line parser honors quoted fields containing the separator
and escaped quotes: `"A, B",C` parses to the two fields `A, B` and `C`, and
`"say ""hi"""` parses to the single field `say "hi"`. -/
theorem parseCSVLine_quotes_and_escapes :
    parseCSVLine "\"A, B\",C" = ["A, B", "C"] ∧
    parseCSVLine "\"say \"\"hi\"\"\"" = ["say \"hi\""] := by
  constructor
  · simp [parseCSVLine, parseCSVLineAux, jsTrim, dropLeadingWS]
  · simp [parseCSVLine, parseCSVLineAux, jsTrim, dropLeadingWS]

/-- Aggregated per-product order statistics (`productStats` map entries in
`app.best-sellers.jsx`). -/
structure ProductStat where
  id : String
  title : String
  totalInventory : Option Int
  imageUrl : Option String
  collections : List String
  soldUnits : Nat
  deriving Repr, DecidableEq

/-- A ranked best-seller entry (`{ ...p, rank: index + 1 }`). -/
structure RankedProduct extends ProductStat where
  rank : Nat
  deriving Repr, DecidableEq

/-- The ranking pipeline of the best-sellers loader:
`Array.from(productStats.values()).filter(p => p.soldUnits > 0)
.sort((a, b) => b.soldUnits - a.soldUnits).slice(0, 150)
.map((p, index) => ({ ...p, rank: index + 1 }))`. -/
def bestSellersRanking (stats : List ProductStat) : List RankedProduct :=
  (((stats.filter (fun p => decide (0 < p.soldUnits))).mergeSort
      (fun a b => decide (b.soldUnits ≤ a.soldUnits))).take 150).mapIdx
    (fun i p => { toProductStat := p, rank := i + 1 })

theorem sold_le_trans (a b c : ProductStat) :
    decide (b.soldUnits ≤ a.soldUnits) → decide (c.soldUnits ≤ b.soldUnits)
      → decide (c.soldUnits ≤ a.soldUnits) := by
  simp only [decide_eq_true_eq]
  omega

theorem sold_le_total (a b : ProductStat) :
    (decide (b.soldUnits ≤ a.soldUnits)
      || decide (a.soldUnits ≤ b.soldUnits)) = true := by
  simp only [Bool.or_eq_true, decide_eq_true_eq]
  omega

/-- C10: The best-sellers output contains only products with strictly
positive `soldUnits`, is sorted in non-increasing order of `soldUnits`,
has at most 150 entries, and the entry at position `i` carries rank
`i + 1`. -/
theorem bestSellers_ranking_properties (stats : List ProductStat) :
    (∀ p ∈ bestSellersRanking stats, 0 < p.soldUnits) ∧
    (bestSellersRanking stats).Pairwise
      (fun a b => b.soldUnits ≤ a.soldUnits) ∧
    (bestSellersRanking stats).length ≤ 150 ∧
    (∀ i, ∀ h : i < (bestSellersRanking stats).length,
      ((bestSellersRanking stats).get ⟨i, h⟩).rank = i + 1) := by
  refine ⟨?_, ?_, ?_, ?_⟩
  · intro p hp
    rw [bestSellersRanking, List.mem_mapIdx] at hp
    obtain ⟨i, hi, hp⟩ := hp
    have hmem : (((stats.filter (fun p => decide (0 < p.soldUnits))).mergeSort
        (fun a b => decide (b.soldUnits ≤ a.soldUnits))).take 150)[i]
        ∈ stats.filter (fun p => decide (0 < p.soldUnits)) := by
      have h1 := List.getElem_mem hi
      have h2 := List.mem_of_mem_take h1
      rwa [List.mem_mergeSort] at h2
    have := (List.mem_filter.mp hmem).2
    rw [← hp]
    simpa using this
  · set le : ProductStat → ProductStat → Bool :=
      fun a b => decide (b.soldUnits ≤ a.soldUnits)
    have hsorted : ((stats.filter
        (fun p => decide (0 < p.soldUnits))).mergeSort le).Pairwise
        (fun a b => le a b) :=
      List.sorted_mergeSort
        (fun a b c => sold_le_trans a b c)
        (fun a b => sold_le_total a b) _
    have htake := List.Pairwise.sublist (List.take_sublist 150 _) hsorted
    rw [List.pairwise_iff_getElem] at htake ⊢
    intro i j hi hj hij
    have := htake i j (by simpa [bestSellersRanking] using hi)
      (by simpa [bestSellersRanking] using hj) hij
    simp only [bestSellersRanking, List.getElem_mapIdx]
    simpa [le] using this
  · simp only [bestSellersRanking, List.length_mapIdx, List.length_take]
    omega
  · intro i h
    simp [bestSellersRanking, List.get_eq_getElem, List.getElem_mapIdx]

/-- Concrete input used to witness the best-sellers ranking theorem. -/
def demoStats : List ProductStat :=
  [⟨"gid-1", "Alpha", none, none, [], 5⟩,
   ⟨"gid-2", "Beta", none, none, [], 3⟩]

/-- Witness for the best-sellers ranking theorem at a concrete input. -/
theorem bestSellers_ranking_properties_witness :
    ((bestSellersRanking demoStats).get
        ⟨0, by simp [bestSellersRanking, demoStats]⟩).rank = 0 + 1 :=
  (bestSellers_ranking_properties demoStats).2.2.2 0
    (by simp [bestSellersRanking, demoStats])

/-- JavaScript `String.prototype.split` with a single-character separator,
on the character list: `"a/b".split("/") = ["a", "b"]`, `"".split("/") =
[""]`. -/
def splitChar (c : Char) : List Char → List (List Char)
  | [] => [[]]
  | x :: xs =>
    if x = c then [] :: splitChar c xs
    else
      match splitChar c xs with
      | [] => [[x]]
      | y :: ys => (x :: y) :: ys

theorem splitChar_ne_nil (c : Char) (xs : List Char) : splitChar c xs ≠ [] := by
  cases xs with
  | nil => simp [splitChar]
  | cons x xs =>
    by_cases hx : x = c
    · simp [splitChar, hx]
    · simp only [splitChar, if_neg hx]
      cases splitChar c xs <;> simp

theorem splitChar_no_sep (c : Char) (xs : List Char) (h : c ∉ xs) :
    splitChar c xs = [xs] := by
  induction xs with
  | nil => rfl
  | cons x rest ih =>
    have hx : ¬ x = c := fun he => h (he ▸ List.mem_cons_self x rest)
    have hr : c ∉ rest := fun hm => h (List.mem_cons_of_mem x hm)
    simp only [splitChar, if_neg hx, ih hr]

theorem splitChar_two_le (c : Char) (xs : List Char) (h : c ∈ xs) :
    2 ≤ (splitChar c xs).length := by
  induction xs with
  | nil => cases h
  | cons x rest ih =>
    by_cases hx : x = c
    · simp only [splitChar, if_pos hx, List.length_cons]
      have := splitChar_ne_nil c rest
      cases he : splitChar c rest with
      | nil => exact absurd he this
      | cons y ys => simp
    · have hr : c ∈ rest := by
        rcases List.mem_cons.mp h with h1 | h1
        · exact absurd h1.symm hx
        · exact h1
      simp only [splitChar, if_neg hx]
      cases he : splitChar c rest with
      | nil => exact absurd he (splitChar_ne_nil c rest)
      | cons y ys =>
        have := ih hr
        rw [he] at this
        simpa using this

theorem splitChar_getLast? (c : Char) (xs ys : List Char) (h : c ∉ ys) :
    (splitChar c (xs ++ c :: ys)).getLast? = some ys := by
  induction xs with
  | nil =>
    simp only [List.nil_append, splitChar, if_pos rfl, splitChar_no_sep c ys h]
    rfl
  | cons x rest ih =>
    by_cases hx : x = c
    · simp only [List.cons_append, splitChar, if_pos hx]
      cases he : splitChar c (rest ++ c :: ys) with
      | nil => exact absurd he (splitChar_ne_nil c _)
      | cons y ys' =>
        rw [List.getLast?_cons_cons]
        rw [he] at ih
        exact ih
    · simp only [List.cons_append, splitChar, if_neg hx]
      cases he : splitChar c (rest ++ c :: ys) with
      | nil => exact absurd he (splitChar_ne_nil c _)
      | cons y ys' =>
        cases ys' with
        | nil =>
          have h2 := splitChar_two_le c (rest ++ c :: ys)
            (List.mem_append_right rest (List.mem_cons_self c ys))
          rw [he] at h2
          simp at h2
        | cons b l =>
          rw [List.getLast?_cons_cons]
          rw [he] at ih
          rw [List.getLast?_cons_cons] at ih
          exact ih

theorem splitChar_head? (c : Char) (xs ys : List Char) (h : c ∉ xs) :
    (splitChar c (xs ++ c :: ys)).head? = some xs := by
  induction xs with
  | nil => simp [splitChar]
  | cons x rest ih =>
    have hx : ¬ x = c := fun he => h (he ▸ List.mem_cons_self x rest)
    have hr : c ∉ rest := fun hm => h (List.mem_cons_of_mem x hm)
    simp only [List.cons_append, splitChar, if_neg hx]
    cases he : splitChar c (rest ++ c :: ys) with
    | nil => exact absurd he (splitChar_ne_nil c _)
    | cons y ys' =>
      have := ih hr
      rw [he, List.head?_cons] at this
      simp only [List.head?_cons, Option.some.injEq] at this ⊢
      rw [this]

/-- JavaScript `String.prototype.replace` with a plain-string pattern: only
the first occurrence of `pat` is replaced by `rep`. -/
def replaceFirstL (pat rep : List Char) : List Char → List Char
  | [] => if pat.isPrefixOf ([] : List Char) then rep else []
  | x :: xs =>
    if pat.isPrefixOf (x :: xs) then rep ++ (x :: xs).drop pat.length
    else x :: replaceFirstL pat rep xs

theorem isPrefixOf_append_self (pat rest : List Char) :
    pat.isPrefixOf (pat ++ rest) = true := by
  induction pat with
  | nil => simp [List.isPrefixOf]
  | cons p ps ih => simp [List.isPrefixOf, ih]

theorem replaceFirstL_of_prefix (pat rep rest : List Char) (h : pat ≠ []) :
    replaceFirstL pat rep (pat ++ rest) = rep ++ rest := by
  cases pat with
  | nil => exact absurd rfl h
  | cons p ps =>
    rw [List.cons_append, replaceFirstL,
      if_pos (by rw [← List.cons_append]; exact isPrefixOf_append_self _ _)]
    rw [← List.cons_append, List.drop_left]

/-- The numeric-suffix derivation of the duplicate-SKU route:
`const numericId = variantGid.split("/").pop(); newSkuValue =
`IC-${numericId}`;`. -/
def newSkuDup (variantGid : String) : String :=
  "IC-" ++ String.mk ((splitChar '/' variantGid.data).getLastD [])

/-- The numeric-suffix derivation of the missing-SKU route:
`const numericId = variantId.replace("gid://shopify/ProductVariant/", "");
const newSKU = `IC-${numericId}`;`. -/
def newSkuMissing (variantId : String) : String :=
  "IC-" ++ String.mk
    (replaceFirstL ("gid://shopify/ProductVariant/".data) [] variantId.data)

/-- The canonical Shopify variant-identifier prefix. -/
def variantGidRoot : String := "gid://shopify/ProductVariant/"

theorem stringMk_data (s : String) : String.mk s.data = s := by
  cases s
  rfl

theorem newSkuDup_canonical (n : String) (h : '/' ∉ n.data) :
    newSkuDup (variantGidRoot ++ n) = "IC-" ++ n := by
  unfold newSkuDup
  have hdata : (variantGidRoot ++ n).data
      = "gid://shopify/ProductVariant".data ++ '/' :: n.data := by
    rw [String.data_append]
    have : variantGidRoot.data
        = "gid://shopify/ProductVariant".data ++ ['/'] := by decide
    rw [this, List.append_assoc]
    rfl
  rw [hdata, List.getLastD_eq_getLast?, splitChar_getLast? '/' _ _ h]
  rw [Option.getD_some, stringMk_data]

theorem newSkuMissing_canonical (n : String) :
    newSkuMissing (variantGidRoot ++ n) = "IC-" ++ n := by
  unfold newSkuMissing
  rw [String.data_append]
  have hpre : "gid://shopify/ProductVariant/".data = variantGidRoot.data :=
    rfl
  rw [hpre, replaceFirstL_of_prefix _ _ _ (by decide), List.nil_append,
    stringMk_data]

theorem ic_append_injective (n₁ n₂ : String)
    (h : ("IC-" ++ n₁ : String) = "IC-" ++ n₂) : n₁ = n₂ := by
  have := congrArg String.data h
  rw [String.data_append, String.data_append] at this
  exact String.ext (List.append_cancel_left this)

/-- C8: The reassigned SKU is a pure function of the variant's own
identifier: for a canonical identifier `variantGidRoot ++ n` (numeric
suffix `n` containing no `/`), both routes derive exactly `"IC-" ++ n` —
so deriving twice yields the same value — and distinct identifiers derive
distinct values. -/
theorem reassigned_sku_deterministic_injective (n₁ n₂ : String)
    (h₁ : '/' ∉ n₁.data) (h₂ : '/' ∉ n₂.data) :
    newSkuDup (variantGidRoot ++ n₁) = "IC-" ++ n₁ ∧
    newSkuMissing (variantGidRoot ++ n₁) = "IC-" ++ n₁ ∧
    (variantGidRoot ++ n₁ ≠ variantGidRoot ++ n₂ →
      newSkuDup (variantGidRoot ++ n₁) ≠ newSkuDup (variantGidRoot ++ n₂)
      ∧ newSkuMissing (variantGidRoot ++ n₁)
          ≠ newSkuMissing (variantGidRoot ++ n₂)) := by
  refine ⟨newSkuDup_canonical n₁ h₁, newSkuMissing_canonical n₁, ?_⟩
  intro hne
  have hns : n₁ ≠ n₂ := by
    intro he
    exact hne (by rw [he])
  constructor
  · rw [newSkuDup_canonical n₁ h₁, newSkuDup_canonical n₂ h₂]
    exact fun he => hns (ic_append_injective n₁ n₂ he)
  · rw [newSkuMissing_canonical n₁, newSkuMissing_canonical n₂]
    exact fun he => hns (ic_append_injective n₁ n₂ he)

/-- Witness for the reassignment-derivation theorem at concrete
identifiers. -/
theorem reassigned_sku_deterministic_injective_witness :
    newSkuDup (variantGidRoot ++ "111") = "IC-" ++ "111" ∧
    newSkuDup (variantGidRoot ++ "111")
      ≠ newSkuDup (variantGidRoot ++ "222") := by
  have h := reassigned_sku_deterministic_injective "111" "222"
    (by decide) (by decide)
  exact ⟨h.1, (h.2.2 (by decide)).1⟩

/-- The CSV-comparison GTIN normalization: `if (csvGTIN &&
csvGTIN.includes('.')) { csvGTIN = csvGTIN.split('.')[0]; }` applied to the
already-trimmed CSV secondary key. -/
def normalizeGTIN (s : String) : String :=
  if s ≠ "" ∧ s.data.contains '.' then
    String.mk ((splitChar '.' s.data).headD [])
  else s

/-- Outcome buckets of the CSV/store secondary-key comparison
(`app.csv-comparison.jsx` lines 157–205): `perfectMatch` is the
`skuFoundBarcodeMatch` bucket, `mismatch` the `barcodeMismatch` bucket, and
the three remaining cases land in `matched` with explanatory notes. -/
inductive GtinOutcome where
  | perfectMatch
  | mismatch
  | bothMissing
  | csvMissing
  | shopifyMissing
  deriving Repr, DecidableEq

/-- The comparison performed once a CSV SKU is found in the store: the CSV
GTIN (trimmed, then normalized) against the store barcode; the empty string
models a missing/falsy value on either side. -/
def classifyGtin (csvGTINTrimmed shopifyBarcode : String) : GtinOutcome :=
  let g := normalizeGTIN csvGTINTrimmed
  if g ≠ "" ∧ shopifyBarcode ≠ "" then
    if g = shopifyBarcode then .perfectMatch else .mismatch
  else if g = "" ∧ shopifyBarcode = "" then .bothMissing
  else if g = "" then .csvMissing
  else .shopifyMissing

/-- Modelled from the spec: the claimed normalization rule — only a
secondary key consisting of an integer part, a decimal point and a non-empty
run of zeros is reduced to its integer form; every other value is compared
as-is. -/
def specNormalizeGTIN (s : String) : String :=
  match splitChar '.' s.data with
  | [intPart, frac] =>
    if frac ≠ [] ∧ frac.all (fun d => d = '0') then String.mk intPart else s
  | _ => s

/-- C5 counterexample: The code truncates the CSV secondary key at the
first decimal point whatever the fraction digits are: `"123.45"` is
normalized to `"123"` and classified as a perfect match against a store
barcode `"123"`, although the claimed rule (only `".0"`-style suffixes)
would leave `"123.45"` unchanged and classify a mismatch. -/
theorem gtin_normalization_counterexample :
    normalizeGTIN "123.45" = "123" ∧
    specNormalizeGTIN "123.45" = "123.45" ∧
    classifyGtin "123.45" "123" = .perfectMatch ∧
    classifyGtin "123.0" "123" = .perfectMatch := by
  refine ⟨by decide, by decide, by decide, by decide⟩

/-- C5 amended: The single numeric normalization applied by the
comparison truncates the CSV-side secondary key at the first decimal point,
regardless of the digits that follow: every key of the form
`intPart ++ "." ++ frac` (with no earlier dot) is compared as `intPart`.
The `"123.0" = "123"` case of the claim is the `frac = "0"` instance; the
store-side value is never normalized. -/
theorem gtin_normalization_truncates_at_first_dot (intPart frac : String)
    (h : ('.' : Char) ∉ intPart.data) :
    normalizeGTIN (intPart ++ "." ++ frac) = intPart := by
  have hdata : (intPart ++ "." ++ frac).data
      = intPart.data ++ '.' :: frac.data := by
    rw [String.data_append, String.data_append, List.append_assoc]
    rfl
  unfold normalizeGTIN
  rw [hdata]
  rw [if_pos ?_]
  · rw [List.headD_eq_head?_getD, splitChar_head? '.' _ _ h, Option.getD_some,
      stringMk_data]
  · constructor
    · intro he
      have := congrArg String.data he
      rw [hdata] at this
      simp at this
    · simp

/-- Witness for the amended GTIN-normalization theorem at a concrete key. -/
theorem gtin_normalization_truncates_witness :
    normalizeGTIN ("123" ++ "." ++ "45") = "123" :=
  gtin_normalization_truncates_at_first_dot "123" "45" (by decide)

/-- One entry of the `productVariantsBulkUpdate` variants argument:
`{ id: node.id, inventoryItem: { sku: newSkuValue } }`. -/
structure VariantInput where
  id : String
  newSku : String
  deriving Repr, DecidableEq

/-- One variant node returned by the `productVariants` SKU search in the
duplicate-SKUs action (with `product.id` flattened). -/
structure SearchNode where
  id : String
  productId : String
  sku : Option String
  deriving Repr, DecidableEq

/-- The filter applied to every search result: `if (!node?.sku) continue;
if (node.sku.trim() !== currentSku) continue;` — absent and empty SKUs are
dropped, and the trimmed SKU must equal the requested one exactly. -/
def keepNode (currentSku : String) (n : SearchNode) : Bool :=
  match n.sku with
  | none => false
  | some s => if s = "" then false else decide (jsTrim s = currentSku)

/-- The per-node variant input: cleared SKU for `removeSku`, derived
`IC-`-value for `reassignSku`. -/
def mkVariantInput (isReassign : Bool) (n : SearchNode) : VariantInput :=
  ⟨n.id, if isReassign then newSkuDup n.id else ""⟩

/-- The `variantsByProduct` map built by the duplicate-SKUs action: for every
requested SKU, every matching search node is pushed onto its product's
batch. -/
def collectVariantsByProduct (skuList : List String)
    (search : String → List SearchNode) (isReassign : Bool) :
    List (String × List VariantInput) :=
  skuList.foldl
    (fun m currentSku =>
      (search currentSku).foldl
        (fun m node =>
          if keepNode currentSku node then
            mapInsert m node.productId (mkVariantInput isReassign node)
          else m)
        m)
    []

theorem collect_inner_contents (currentSku : String) (isReassign : Bool)
    (nodes : List SearchNode) (m : List (String × List VariantInput)) :
    (mapContents
        (nodes.foldl
          (fun m node =>
            if keepNode currentSku node then
              mapInsert m node.productId (mkVariantInput isReassign node)
            else m)
          m)).Perm
      (mapContents m
        ++ (nodes.filter (keepNode currentSku)).map
            (mkVariantInput isReassign)) := by
  induction nodes generalizing m with
  | nil => simp
  | cons node rest ih =>
    by_cases hk : keepNode currentSku node = true
    · rw [List.foldl_cons, if_pos hk, List.filter_cons_of_pos hk,
        List.map_cons]
      refine (ih _).trans ?_
      refine List.Perm.trans
        (List.Perm.append_right _ (mapInsert_contents m _ _)) ?_
      simpa using List.perm_middle.symm
    · rw [List.foldl_cons, if_neg hk,
        List.filter_cons_of_neg (by simpa using hk)]
      exact ih m

/-- The variant inputs that the search/filter phase keeps, listed per
requested SKU. -/
def matchingInputs (skuList : List String)
    (search : String → List SearchNode) (isReassign : Bool) :
    List VariantInput :=
  (skuList.map (fun k =>
    ((search k).filter (keepNode k)).map (mkVariantInput isReassign))).flatten

theorem collect_contents (skuList : List String)
    (search : String → List SearchNode) (isReassign : Bool) :
    (mapContents (collectVariantsByProduct skuList search isReassign)).Perm
      (matchingInputs skuList search isReassign) := by
  suffices h : ∀ m : List (String × List VariantInput),
      (mapContents
          (skuList.foldl
            (fun m currentSku =>
              (search currentSku).foldl
                (fun m node =>
                  if keepNode currentSku node then
                    mapInsert m node.productId (mkVariantInput isReassign node)
                  else m)
                m)
            m)).Perm
        (mapContents m
          ++ (skuList.map (fun k =>
              ((search k).filter (keepNode k)).map
                (mkVariantInput isReassign))).flatten) by
    simpa [collectVariantsByProduct, mapContents, matchingInputs] using h []
  induction skuList with
  | nil => intro m; simp
  | cons k rest ih =>
    intro m
    rw [List.foldl_cons, List.map_cons, List.flatten_cons]
    refine ((ih _).trans ?_)
    refine List.Perm.trans
      (List.Perm.append_right _ (collect_inner_contents k isReassign _ m)) ?_
    rw [List.append_assoc]

theorem keepNode_iff (k : String) (n : SearchNode) :
    keepNode k n = true
      ↔ ∃ s, n.sku = some s ∧ s ≠ "" ∧ jsTrim s = k := by
  unfold keepNode
  cases hs : n.sku with
  | none => simp
  | some s =>
    by_cases he : s = ""
    · simp [he]
    · simp [he]

/-- C9: The per-parent mutation batches built by the clear/reassign
action contain exactly the search results whose SKU is present, non-empty,
and trims to one of the requested SKUs; every other returned variant is
excluded from every batch (and therefore untouched by the bulk update
calls, which receive only these batches). -/
theorem batches_contain_exactly_matching_variants (skuList : List String)
    (search : String → List SearchNode) (isReassign : Bool) (idv : String) :
    (∃ inp ∈ mapContents (collectVariantsByProduct skuList search isReassign),
        inp.id = idv)
      ↔ ∃ k ∈ skuList, ∃ n ∈ search k, n.id = idv
          ∧ ∃ s, n.sku = some s ∧ s ≠ "" ∧ jsTrim s = k := by
  constructor
  · rintro ⟨inp, hmem, hid⟩
    rw [(collect_contents skuList search isReassign).mem_iff] at hmem
    rw [matchingInputs, List.mem_flatten] at hmem
    obtain ⟨l, hl, hinp⟩ := hmem
    rw [List.mem_map] at hl
    obtain ⟨k, hk, rfl⟩ := hl
    rw [List.mem_map] at hinp
    obtain ⟨n, hn, rfl⟩ := hinp
    rw [List.mem_filter] at hn
    refine ⟨k, hk, n, hn.1, hid, (keepNode_iff k n).mp hn.2⟩
  · rintro ⟨k, hk, n, hn, hid, hsku⟩
    refine ⟨mkVariantInput isReassign n, ?_, hid⟩
    rw [(collect_contents skuList search isReassign).mem_iff,
      matchingInputs, List.mem_flatten]
    refine ⟨((search k).filter (keepNode k)).map (mkVariantInput isReassign),
      List.mem_map_of_mem _ hk, ?_⟩
    exact List.mem_map_of_mem _
      (List.mem_filter.mpr ⟨hn, (keepNode_iff k n).mpr hsku⟩)

/-- Reply of one `productVariantsBulkUpdate` call in the duplicate-SKUs
action: either top-level GraphQL errors (first message kept) or a payload
with `userErrors` messages and the number of returned `productVariants`. -/
inductive BulkUpdateReply where
  | gqlErrors (msg : String)
  | payload (userErrors : List String) (updatedCount : Nat)
  deriving Repr, DecidableEq

/-- Result shape of the duplicate-SKUs action: `{ success: false, error }`
on the first failure, `{ success: true, variantsUpdated }` otherwise. -/
structure DupActionResult where
  success : Bool
  error : Option String
  variantsUpdated : Option Nat
  deriving Repr, DecidableEq

/-- The bulk-update loop of the duplicate-SKUs action
(`for (const [productIdForVariant, variantInputs] of
variantsByProduct.entries())`): one write call per product; on `json.errors`
or non-empty `userErrors` the action returns immediately with that error;
otherwise `totalUpdated` accumulates and the loop continues.  The second
component records which products a write call was issued for. -/
def runDupBatchesAux (respond : String → BulkUpdateReply)
    (totalUpdated : Nat) (attempted : List String) :
    List (String × List VariantInput) → DupActionResult × List String
  | [] => (⟨true, none, some totalUpdated⟩, attempted)
  | (pid, _inputs) :: rest =>
    match respond pid with
    | .gqlErrors m =>
      (⟨false, some ("GraphQL bulk update error: " ++ m), none⟩,
        attempted ++ [pid])
    | .payload userErrors updated =>
      match userErrors with
      | e :: _ => (⟨false, some e, none⟩, attempted ++ [pid])
      | [] =>
        runDupBatchesAux respond (totalUpdated + updated)
          (attempted ++ [pid]) rest

def runDupBatches (batches : List (String × List VariantInput))
    (respond : String → BulkUpdateReply) : DupActionResult × List String :=
  runDupBatchesAux respond 0 [] batches

/-- A selected variant submitted to the missing-SKUs action
(`{ productId, variantId }`); the empty string models a missing field. -/
structure SelectedVariant where
  productId : String
  variantId : String
  deriving Repr, DecidableEq

/-- The grouping step of the missing-SKUs action: skip items without both
ids, then group variant ids by product id in a `Map`. -/
def groupSelection (variants : List SelectedVariant) :
    List (String × List String) :=
  variants.foldl
    (fun m item =>
      if item.productId = "" ∨ item.variantId = "" then m
      else mapInsert m item.productId item.variantId)
    []

/-- Outcome of one bulk-update call in the missing-SKUs action: a thrown
request error, or a reply with `userErrors` messages and the number of
updated variants. -/
inductive BulkCallOutcome where
  | thrown (msg : String)
  | reply (userErrors : List String) (updatedCount : Nat)
  deriving Repr, DecidableEq

/-- Aggregate result of the missing-SKUs action:
`{ success: true, successCount, failedCount, errors }`. -/
structure MissingActionResult where
  success : Bool
  successCount : Nat
  failedCount : Nat
  errors : List (String × String)
  deriving Repr, DecidableEq

/-- The per-product loop of the missing-SKUs action: a thrown call adds the
whole batch to `failedCount` and records one error; a reply adds its
`userErrors` to `failedCount` (recording each) and its updated variants to
`successCount`; the loop always continues to the next product. -/
def runMissingBatchesAux (respond : String → BulkCallOutcome)
    (successCount failedCount : Nat) (errors : List (String × String)) :
    List (String × List String) → MissingActionResult
  | [] => ⟨true, successCount, failedCount, errors⟩
  | (pid, variantIds) :: rest =>
    match respond pid with
    | .thrown msg =>
      runMissingBatchesAux respond successCount
        (failedCount + variantIds.length) (errors ++ [(pid, msg)]) rest
    | .reply userErrors updated =>
      runMissingBatchesAux respond (successCount + updated)
        (failedCount + userErrors.length)
        (errors ++ userErrors.map (fun e => (pid, e))) rest

def runMissingBatches (grouped : List (String × List String))
    (respond : String → BulkCallOutcome) : MissingActionResult :=
  runMissingBatchesAux respond 0 0 [] grouped

/-- Whether a duplicate-SKUs bulk-update reply takes a failure branch. -/
def replyFails : BulkUpdateReply → Bool
  | .gqlErrors _ => true
  | .payload userErrors _ => !userErrors.isEmpty

/-- The error message the duplicate-SKUs action returns for a failing
reply. -/
def replyErrorMsg : BulkUpdateReply → Option String
  | .gqlErrors m => some ("GraphQL bulk update error: " ++ m)
  | .payload userErrors _ => userErrors.head?

/-- Pointwise combination of two missing-SKUs results. -/
def combineMissing (r₁ r₂ : MissingActionResult) : MissingActionResult :=
  ⟨true, r₁.successCount + r₂.successCount, r₁.failedCount + r₂.failedCount,
    r₁.errors ++ r₂.errors⟩

theorem runMissingBatchesAux_cons_thrown (respond : String → BulkCallOutcome)
    (s f : Nat) (e : List (String × String)) (pid : String)
    (variantIds : List String) (rest : List (String × List String))
    (msg : String) (hr : respond pid = .thrown msg) :
    runMissingBatchesAux respond s f e ((pid, variantIds) :: rest)
      = runMissingBatchesAux respond s (f + variantIds.length)
          (e ++ [(pid, msg)]) rest := by
  rw [runMissingBatchesAux, hr]

theorem runMissingBatchesAux_cons_reply (respond : String → BulkCallOutcome)
    (s f : Nat) (e : List (String × String)) (pid : String)
    (variantIds : List String) (rest : List (String × List String))
    (userErrors : List String) (updated : Nat)
    (hr : respond pid = .reply userErrors updated) :
    runMissingBatchesAux respond s f e ((pid, variantIds) :: rest)
      = runMissingBatchesAux respond (s + updated) (f + userErrors.length)
          (e ++ userErrors.map (fun er => (pid, er))) rest := by
  rw [runMissingBatchesAux, hr]

theorem runMissingBatchesAux_acc (respond : String → BulkCallOutcome)
    (bs : List (String × List String)) (s f : Nat)
    (e : List (String × String)) :
    runMissingBatchesAux respond s f e bs
      = ⟨true, s + (runMissingBatches bs respond).successCount,
          f + (runMissingBatches bs respond).failedCount,
          e ++ (runMissingBatches bs respond).errors⟩ := by
  induction bs generalizing s f e with
  | nil => simp [runMissingBatchesAux, runMissingBatches]
  | cons b rest ih =>
    obtain ⟨pid, variantIds⟩ := b
    cases hr : respond pid with
    | thrown msg =>
      rw [runMissingBatches,
        runMissingBatchesAux_cons_thrown respond s f e pid variantIds rest
          msg hr,
        runMissingBatchesAux_cons_thrown respond 0 0 [] pid variantIds rest
          msg hr, ih, ih]
      simp only [MissingActionResult.mk.injEq, true_and]
      refine ⟨by omega, by omega, by simp⟩
    | reply userErrors updated =>
      rw [runMissingBatches,
        runMissingBatchesAux_cons_reply respond s f e pid variantIds rest
          userErrors updated hr,
        runMissingBatchesAux_cons_reply respond 0 0 [] pid variantIds rest
          userErrors updated hr, ih, ih]
      simp only [MissingActionResult.mk.injEq, true_and]
      refine ⟨by omega, by omega, by simp⟩

theorem runMissingBatchesAux_append (respond : String → BulkCallOutcome)
    (b₁ b₂ : List (String × List String)) :
    ∀ (s f : Nat) (e : List (String × String)),
      runMissingBatchesAux respond s f e (b₁ ++ b₂)
        = runMissingBatchesAux respond
            (runMissingBatchesAux respond s f e b₁).successCount
            (runMissingBatchesAux respond s f e b₁).failedCount
            (runMissingBatchesAux respond s f e b₁).errors b₂ := by
  induction b₁ with
  | nil => intro s f e; rfl
  | cons b rest ih =>
    intro s f e
    obtain ⟨pid, variantIds⟩ := b
    rw [List.cons_append]
    cases hr : respond pid with
    | thrown msg =>
      rw [runMissingBatchesAux_cons_thrown respond s f e pid variantIds
          (rest ++ b₂) msg hr,
        runMissingBatchesAux_cons_thrown respond s f e pid variantIds rest
          msg hr, ih]
    | reply userErrors updated =>
      rw [runMissingBatchesAux_cons_reply respond s f e pid variantIds
          (rest ++ b₂) userErrors updated hr,
        runMissingBatchesAux_cons_reply respond s f e pid variantIds rest
          userErrors updated hr, ih]

theorem runMissingBatches_append (b₁ b₂ : List (String × List String))
    (respond : String → BulkCallOutcome) :
    runMissingBatches (b₁ ++ b₂) respond
      = combineMissing (runMissingBatches b₁ respond)
          (runMissingBatches b₂ respond) := by
  rw [runMissingBatches, runMissingBatchesAux_append,
    show runMissingBatchesAux respond 0 0 [] b₁
      = runMissingBatches b₁ respond from rfl,
    runMissingBatchesAux_acc]
  rfl

/-- C2 counterexample: In the duplicate-SKUs action, a failing first
batch aborts the loop: with two parents where the first reply carries a
`userErrors` message, the action returns `success: false` with that message,
no updated count, and the second parent's batch is never attempted. -/
theorem dup_batch_failure_blocks_remaining :
    runDupBatches
        [("gid://shopify/Product/1",
          [⟨"gid://shopify/ProductVariant/11", ""⟩]),
         ("gid://shopify/Product/2",
          [⟨"gid://shopify/ProductVariant/22", ""⟩])]
        (fun pid => if pid = "gid://shopify/Product/1"
          then .payload ["boom"] 0 else .payload [] 1)
      = (⟨false, some "boom", none⟩, ["gid://shopify/Product/1"]) := by
  decide

/-- C2 amended: Partial-failure isolation holds for the missing-SKUs
action: its per-parent loop is compositional (the result over `b₁ ++ b₂`
combines the two halves' success counts, failure counts and error lists, so
one parent's failure never affects another's batch), while the
duplicate-SKUs action aborts on the first failing batch, returning that
batch's error and leaving the remaining parents' batches unattempted. -/
theorem bulk_mutation_partial_failure_semantics
    (b₁ b₂ : List (String × List String))
    (respondM : String → BulkCallOutcome)
    (pid : String) (inputs : List VariantInput)
    (rest : List (String × List VariantInput))
    (respondD : String → BulkUpdateReply)
    (hfail : replyFails (respondD pid) = true) :
    runMissingBatches (b₁ ++ b₂) respondM
      = combineMissing (runMissingBatches b₁ respondM)
          (runMissingBatches b₂ respondM) ∧
    runDupBatches ((pid, inputs) :: rest) respondD
      = (⟨false, replyErrorMsg (respondD pid), none⟩, [pid]) := by
  refine ⟨runMissingBatches_append b₁ b₂ respondM, ?_⟩
  unfold runDupBatches
  cases hr : respondD pid with
  | gqlErrors m =>
    simp [runDupBatchesAux, hr, replyErrorMsg]
  | payload userErrors updated =>
    rw [replyFails.eq_def, hr] at hfail
    cases userErrors with
    | nil => simp at hfail
    | cons e es =>
      simp [runDupBatchesAux, hr, replyErrorMsg]

/-- Missing-SKUs responder used by the partial-failure witness: the first
parent's call throws, the second succeeds. -/
def demoRespondM : String → BulkCallOutcome :=
  fun pid => if pid = "p1" then .thrown "down" else .reply [] 1

/-- Witness for the partial-failure theorem at concrete batches. -/
theorem bulk_mutation_partial_failure_semantics_witness :
    runMissingBatches ([("p1", ["v1"])] ++ [("p2", ["v2"])]) demoRespondM
      = combineMissing (runMissingBatches [("p1", ["v1"])] demoRespondM)
          (runMissingBatches [("p2", ["v2"])] demoRespondM) ∧
    runDupBatches [("p1", [⟨"v1", ""⟩])] (fun _ => .gqlErrors "down")
      = (⟨false, replyErrorMsg (.gqlErrors "down"), none⟩, ["p1"]) :=
  bulk_mutation_partial_failure_semantics [("p1", ["v1"])] [("p2", ["v2"])]
    demoRespondM "p1" [⟨"v1", ""⟩] [] (fun _ => .gqlErrors "down") (by decide)

/-- The SKU-list clean-up of the duplicate-SKUs action:
`skuList.map(s => s && s.trim()).filter(Boolean)`. -/
def cleanSkuList (raw : List String) : List String :=
  (raw.map jsTrim).filter (fun s => decide (s ≠ ""))

/-- The `removeSku` / `reassignSku` action end to end: clean the requested
SKUs, collect matching variants per product from the search, and run the
per-product bulk updates; early error returns when no SKUs or no variants
remain.  The second component lists the products for which a write call was
issued. -/
def removeOrReassignAction (raw : List String)
    (search : String → List SearchNode)
    (respond : String → BulkUpdateReply) (isReassign : Bool) :
    DupActionResult × List String :=
  let skuList := cleanSkuList raw
  if skuList.isEmpty then
    (⟨false, some "No SKU(s) provided", none⟩, [])
  else
    let variantsByProduct := collectVariantsByProduct skuList search isReassign
    if variantsByProduct.isEmpty then
      (⟨false, some "No variants found for selected SKU(s)", none⟩, [])
    else runDupBatches variantsByProduct respond

/-- A search result whose SKU has already been cleared. -/
def clearedNode : SearchNode :=
  ⟨"gid://shopify/ProductVariant/42", "gid://shopify/Product/7", some ""⟩

/-- C3 counterexample: Running the clear action on a variant whose SKU
is already cleared does *not* succeed: the exact-match filter drops the
variant (its SKU no longer equals the requested one), `variantsByProduct`
stays empty, and the action returns `success: false` with the error
`"No variants found for selected SKU(s)"` — though it issues no write call,
so the field does stay empty. -/
theorem clearField_already_cleared_errors :
    removeOrReassignAction ["ABC"] (fun _ => [clearedNode])
        (fun _ => .payload [] 1) false
      = (⟨false, some "No variants found for selected SKU(s)", none⟩, []) := by
  decide

theorem foldl_keep_none (k : String) (isReassign : Bool)
    (nodes : List SearchNode) (h : ∀ n ∈ nodes, keepNode k n = false) :
    ∀ m : List (String × List VariantInput),
      nodes.foldl
        (fun m node =>
          if keepNode k node then
            mapInsert m node.productId (mkVariantInput isReassign node)
          else m) m = m := by
  induction nodes with
  | nil => intro m; rfl
  | cons n rest ih =>
    intro m
    rw [List.foldl_cons,
      if_neg (by simp [h n (List.mem_cons_self n rest)])]
    exact ih (fun x hx => h x (List.mem_cons_of_mem n hx)) m

theorem collect_nil_of_all_dropped (skuList : List String)
    (search : String → List SearchNode) (isReassign : Bool)
    (h : ∀ k ∈ skuList, ∀ n ∈ search k, keepNode k n = false) :
    collectVariantsByProduct skuList search isReassign = [] := by
  unfold collectVariantsByProduct
  revert h
  induction skuList with
  | nil => intro h; rfl
  | cons k rest ih =>
    intro h
    rw [List.foldl_cons,
      foldl_keep_none k isReassign (search k)
        (h k (List.mem_cons_self k rest))]
    exact ih (fun k' hk' n hn =>
      h k' (List.mem_cons_of_mem k hk') n hn)

/-- C3 amended: Running the clear action on already-cleared variants is
a no-op that reports a failure, not a success: when no searched variant
passes the exact-SKU filter (as is the case once the SKU has been cleared),
the action issues no write call — the field stays empty — and returns
`success: false` with an error message instead of the claimed error-free
success. -/
theorem clearField_already_cleared_noop (raw : List String)
    (search : String → List SearchNode) (respond : String → BulkUpdateReply)
    (h : ∀ k ∈ cleanSkuList raw, ∀ n ∈ search k, keepNode k n = false) :
    (removeOrReassignAction raw search respond false).1.success = false ∧
    (removeOrReassignAction raw search respond false).1.error ≠ none ∧
    (removeOrReassignAction raw search respond false).2 = [] := by
  have hc := collect_nil_of_all_dropped (cleanSkuList raw) search false h
  unfold removeOrReassignAction
  by_cases he : (cleanSkuList raw).isEmpty = true
  · simp [he]
  · simp [he, hc]

/-- Witness for the amended clear-field theorem: clearing by SKU `"ABC"`
when the only search result is an already-cleared variant. -/
theorem clearField_already_cleared_noop_witness :
    (removeOrReassignAction ["ABC"] (fun _ => [clearedNode])
        (fun _ => .payload [] 1) false).1.success = false ∧
    (removeOrReassignAction ["ABC"] (fun _ => [clearedNode])
        (fun _ => .payload [] 1) false).1.error ≠ none ∧
    (removeOrReassignAction ["ABC"] (fun _ => [clearedNode])
        (fun _ => .payload [] 1) false).2 = [] :=
  clearField_already_cleared_noop ["ABC"] (fun _ => [clearedNode])
    (fun _ => .payload [] 1) (by decide)
